import Mathlib

/-!
Verification of the match graph crawler (`app/data_ingest/match_crawler.py`).

The crawler is shallowly embedded: the Riot HTTP client is modelled as a pair
of oracle functions returning `Option` (where `none` models a raised
exception / failed call), Python `set`s are modelled as duplicate-free lists
maintained by `setAdd`, and the `deque` frontier is a list used FIFO
(dequeue at the head, enqueue at the tail).  The unspecified iteration order
of the Python `set` `new_participants` is modelled by an explicit
`setIter` parameter on the crawler; theorems that depend on it take the
hypothesis that it permutes its argument, which is exactly what Python
guarantees.  Three ghost (history) fields are added to the crawler state to
record externally observable events: `processedOrder` logs each player whose
match history is requested (in order), `acceptedIds` logs each match id
whose record is appended to `all_matches` (the order of `on_match_fetched`
callbacks), and `enqueueLog` logs each actual append to the frontier
together with whether the appended player was already visited at that
moment.  No code path reads the ghost fields.
-/

namespace LeagueCrawler

abbrev PlayerId := String
abbrev MatchId := String

/-- One entry of `info.participants`: a rich participant object of which the
crawler only reads the optional `puuid` field (`p.get("puuid")`). -/
structure ParticipantObj where
  puuid : Option String
  deriving DecidableEq, Repr

/-- The `info` part of a match record: the crawler reads `info.queueId` and
`info.participants`, each of which may be absent. -/
structure MatchInfo where
  queueId : Option Int
  participants : Option (List ParticipantObj)
  deriving DecidableEq, Repr

/-- The `metadata` part of a match record: the crawler reads
`metadata.participants`, a compact list of puuids, possibly absent. -/
structure MatchMeta where
  participants : Option (List String)
  deriving DecidableEq, Repr

/-- A match record as returned by `get_match_details`; `metadata` and `info`
may each be absent (`match.get(..., {})` defaults). -/
structure MatchData where
  metadata : Option MatchMeta
  info : Option MatchInfo
  deriving DecidableEq, Repr

/-- The Riot client boundary (`riot_client.py`), as consumed by the crawler:
`get_match_history puuid count` models `client.get_match_history(puuid,
count=...)` and `get_match_details` models `client.get_match_details`.
A `none` result models the call raising an exception. -/
structure RiotClient where
  get_match_history : PlayerId → Nat → Option (List MatchId)
  get_match_details : MatchId → Option MatchData

/-- The immutable crawler configuration (constructor arguments). -/
structure CrawlConfig where
  max_puuids : Nat
  max_matches : Nat
  matches_per_puuid : Nat
  queue_filter : Option (List Int)

/-- A crawler instance: client, configuration, and the oracle `setIter`
giving the iteration order of the Python set `new_participants` (Python
guarantees only that iterating a set yields a permutation of its
elements). -/
structure Crawler where
  client : RiotClient
  cfg : CrawlConfig
  setIter : List PlayerId → List PlayerId

/-- The mutable crawler state.  `visited_puuids` and `fetched_matches` are
Python sets (duplicate-free lists here), `puuid_queue` is the FIFO deque,
`all_matches` the accepted corpus.  The last three fields are ghost history
variables (see the file header); no code path reads them. -/
structure CrawlState where
  visited_puuids : List PlayerId
  fetched_matches : List MatchId
  puuid_queue : List PlayerId
  all_matches : List MatchData
  processedOrder : List PlayerId
  acceptedIds : List MatchId
  enqueueLog : List (PlayerId × Bool)
  deriving DecidableEq, Repr

/-- The fresh state set up by `MatchCrawler.__init__`. -/
def initState : CrawlState :=
  { visited_puuids := [], fetched_matches := [], puuid_queue := [],
    all_matches := [], processedOrder := [], acceptedIds := [], enqueueLog := [] }

/-- Python `set.add` on a set modelled as a duplicate-free list. -/
def setAdd [DecidableEq α] (x : α) (l : List α) : List α :=
  if x ∈ l then l else l ++ [x]

/-- Truthiness of a Python value read with `.get("...")` that is expected to
be a string: `None` and the empty string are falsy. -/
def truthyStr : Option String → Bool
  | some s => !s.isEmpty
  | none => false

/-- The value of `match.get("metadata", {}).get("participants", [])`. -/
def metaParticipants (m : MatchData) : List PlayerId :=
  match m.metadata with
  | some md => md.participants.getD []
  | none => []

/-- The value of `match.get("info", {}).get("participants", [])`. -/
def infoParticipants (m : MatchData) : List ParticipantObj :=
  match m.info with
  | some i => i.participants.getD []
  | none => []

/-- The value of `match_data.get("info", {}).get("queueId")`. -/
def queueIdOf (m : MatchData) : Option Int :=
  match m.info with
  | some i => i.queueId
  | none => none

/-- MatchCrawler.extract_participants: try `metadata.participants` first
(`if participants:` keeps it only when non-empty), else fall back to
`[p.get("puuid") for p in info.participants if p.get("puuid")]`. -/
def extract_participants (m : MatchData) : List PlayerId :=
  let participants := metaParticipants m
  if !participants.isEmpty then participants
  else
    (infoParticipants m).filterMap fun p =>
      if truthyStr p.puuid then p.puuid else none

/-- Truthiness of `self.queue_filter` (`if self.queue_filter:`):
`None` and the empty list are falsy. -/
def filterTruthy : Option (List Int) → Bool
  | some l => !l.isEmpty
  | none => false

/-- The test `queue_id in self.queue_filter` (with `queue_id` possibly
`None`, which is never a member of a list of ints). -/
def queueAllowed (qf : Option (List Int)) (m : MatchData) : Bool :=
  match queueIdOf m with
  | some q => (qf.getD []).contains q
  | none => false

/-- MatchCrawler.should_fetch_match: false when the id was already fetched;
when match data is supplied and the queue filter is truthy, false when the
queue id is not allow-listed; otherwise true. -/
def should_fetch_match (qf : Option (List Int)) (fetched : List MatchId)
    (match_id : MatchId) (match_data : Option MatchData) : Bool :=
  if match_id ∈ fetched then false
  else
    match match_data with
    | some md => if filterTruthy qf && !queueAllowed qf md then false else true
    | none => true

/-- One iteration of the `for match_id in match_ids` loop of
MatchCrawler.crawl (the `time.sleep` rate limit has no state effect):
skip when `should_fetch_match` (called there without match data) is false;
fetch details (`none` models the inner `except` path: log and continue);
re-check the queue filter on the fetched data; otherwise accept: add the id
to `fetched_matches`, append the record to `all_matches` (ghost: log the id
in `acceptedIds`, the order of `on_match_fetched` callbacks), and add every
truthy, unvisited participant puuid to the `new_participants` set. -/
def handleMatch (c : Crawler) (st : CrawlState) (newParts : List PlayerId)
    (match_id : MatchId) : CrawlState × List PlayerId :=
  if !should_fetch_match c.cfg.queue_filter st.fetched_matches match_id none then
    (st, newParts)
  else
    match c.client.get_match_details match_id with
    | none => (st, newParts)
    | some match_data =>
      if filterTruthy c.cfg.queue_filter && !queueAllowed c.cfg.queue_filter match_data then
        (st, newParts)
      else
        let st' := { st with
          fetched_matches := setAdd match_id st.fetched_matches,
          all_matches := st.all_matches ++ [match_data],
          acceptedIds := st.acceptedIds ++ [match_id] }
        let newParts' := (extract_participants match_data).foldl
          (fun acc p =>
            if p ≠ "" ∧ p ∉ st'.visited_puuids then setAdd p acc else acc)
          newParts
        (st', newParts')

/-- The whole `for match_id in match_ids` loop, also returning the state
after each iteration (the observation points inside one player's round). -/
def handleMatches (c : Crawler) :
    CrawlState → List PlayerId → List MatchId → CrawlState × List PlayerId × List CrawlState
  | st, newParts, [] => (st, newParts, [])
  | st, newParts, match_id :: rest =>
    let r1 := handleMatch c st newParts match_id
    let r2 := handleMatches c r1.1 r1.2 rest
    (r2.1, r2.2.1, r1.1 :: r2.2.2)

/-- One iteration of the `for puuid in new_participants` enqueue loop:
append to the frontier only when `len(visited) + len(queue) < max_puuids`
at this moment (ghost: log the append and whether the player was already
visited). -/
def enqueueOne (maxP : Nat) (st : CrawlState) (p : PlayerId) : CrawlState :=
  if st.visited_puuids.length + st.puuid_queue.length < maxP then
    { st with
      puuid_queue := st.puuid_queue ++ [p],
      enqueueLog := st.enqueueLog ++ [(p, decide (p ∈ st.visited_puuids))] }
  else st

/-- The whole enqueue loop over the iteration order of `new_participants`. -/
def enqueueAll (maxP : Nat) : CrawlState → List PlayerId → CrawlState
  | st, [] => st
  | st, p :: rest => enqueueAll maxP (enqueueOne maxP st p) rest

/-- The body of the outer `try` of MatchCrawler.crawl, after the current
player was marked visited: fetch its match history (`none` models the
outer `except` path: log and continue, abandoning the round), stop early
when the listing is empty, run the per-match loop, then enqueue the
discovered participants.  Also returns the observation states inside the
round (after each match id, and after the enqueues). -/
def processPlayer (c : Crawler) (st : CrawlState) (cur : PlayerId) :
    CrawlState × List CrawlState :=
  match c.client.get_match_history cur c.cfg.matches_per_puuid with
  | none => (st, [])
  | some match_ids =>
    if match_ids.isEmpty then (st, [])
    else
      let r := handleMatches c st [] match_ids
      let st2 := enqueueAll c.cfg.max_puuids r.1 (c.setIter r.2.1)
      (st2, r.2.2 ++ [st2])

/-- The `while self.puuid_queue and processed_count < self.max_puuids` loop
of MatchCrawler.crawl, with the `len(fetched_matches) >= max_matches` break
at the top of each iteration.  `fuel` bounds the number of iterations (the
Python loop terminates; all invariant theorems hold for every fuel, and the
concrete runs below use ample fuel).  Returns the final
`processed_count`, the final state, and the observation states. -/
def crawlLoop (c : Crawler) : Nat → Nat → CrawlState → Nat × CrawlState × List CrawlState
  | 0, processed, st => (processed, st, [])
  | fuel + 1, processed, st =>
    match st.puuid_queue with
    | [] => (processed, st, [])
    | cur :: rest =>
      if processed < c.cfg.max_puuids then
        if c.cfg.max_matches ≤ st.fetched_matches.length then (processed, st, [])
        else
          if cur ∈ st.visited_puuids then
            let r := crawlLoop c fuel processed { st with puuid_queue := rest }
            (r.1, r.2.1, { st with puuid_queue := rest } :: r.2.2)
          else
            let st2 := { st with
              puuid_queue := rest,
              visited_puuids := setAdd cur st.visited_puuids,
              processedOrder := st.processedOrder ++ [cur] }
            let pr := processPlayer c st2 cur
            let r := crawlLoop c fuel (processed + 1) pr.1
            (r.1, r.2.1, st2 :: (pr.2 ++ r.2.2))
      else (processed, st, [])

/-- The summary dictionary returned by MatchCrawler.crawl. -/
structure CrawlResult where
  total_puuids_processed : Nat
  total_matches_fetched : Nat
  unique_puuids_discovered : Nat
  «matches» : List MatchData
  deriving DecidableEq, Repr

/-- MatchCrawler.crawl: enqueue the seed (unconditionally), run the loop,
and build the result summary.  Besides the result it returns the final
state and the full list of observation states of the run (the trace),
starting with the state before and after the seed enqueue and ending with
the final state. -/
def crawl (c : Crawler) (fuel : Nat) (st0 : CrawlState) (seed_puuid : PlayerId) :
    CrawlResult × CrawlState × List CrawlState :=
  let stSeed := { st0 with puuid_queue := st0.puuid_queue ++ [seed_puuid] }
  let r := crawlLoop c fuel 0 stSeed
  ({ total_puuids_processed := r.1,
     total_matches_fetched := r.2.1.fetched_matches.length,
     unique_puuids_discovered := r.2.1.visited_puuids.length,
     «matches» := r.2.1.all_matches },
   r.2.1, st0 :: stSeed :: (r.2.2 ++ [r.2.1]))

/-- The final crawler state of a run. -/
def crawlFinal (c : Crawler) (fuel : Nat) (st0 : CrawlState) (seed : PlayerId) :
    CrawlState :=
  (crawl c fuel st0 seed).2.1

/-- The observation states of a run, in order. -/
def crawlTrace (c : Crawler) (fuel : Nat) (st0 : CrawlState) (seed : PlayerId) :
    List CrawlState :=
  (crawl c fuel st0 seed).2.2

/-- The `metadata` part of the document written by
MatchCrawler.save_results. -/
structure SaveMetadata where
  total_puuids_processed : Nat
  total_matches_fetched : Nat
  unique_puuids_discovered : Nat
  visited_puuids : List PlayerId
  fetched_match_ids : List MatchId
  deriving DecidableEq, Repr

/-- The JSON document written by MatchCrawler.save_results (the `matches`
key is present only when `include_matches`). -/
structure SaveData where
  metadata : SaveMetadata
  «matches» : Option (List MatchData)
  deriving DecidableEq, Repr

/-- MatchCrawler.save_results, modelled at the document level (the JSON
encoding of lists of strings is lossless and out of scope). -/
def save_results (st : CrawlState) (include_matches : Bool) : SaveData :=
  { metadata := {
      total_puuids_processed := st.visited_puuids.length,
      total_matches_fetched := st.fetched_matches.length,
      unique_puuids_discovered := st.visited_puuids.length,
      visited_puuids := st.visited_puuids,
      fetched_match_ids := st.fetched_matches },
    «matches» := if include_matches then some st.all_matches else none }

/-- MatchCrawler.load_state: rebuild the visited and fetched sets with
`set(...)` (modelled by `List.dedup`), and replace `all_matches` only when
the document has a `matches` key.  The frontier and the ghost fields are
untouched, as in the source. -/
def load_state (st : CrawlState) (d : SaveData) : CrawlState :=
  let st1 := { st with
    visited_puuids := d.metadata.visited_puuids.dedup,
    fetched_matches := d.metadata.fetched_match_ids.dedup }
  match d.«matches» with
  | some ms => { st1 with all_matches := ms }
  | none => st1

/-! Concrete synthetic clients and crawler instances used by the
example-based theorems below. -/

/-- A match record with queue id 420 and no participant information. -/
def mdPlain : MatchData :=
  { metadata := none, info := some { queueId := some 420, participants := none } }

/-- A match record with queue id 450 and no participant information. -/
def md450 : MatchData :=
  { metadata := none, info := some { queueId := some 450, participants := none } }

/-- A match record whose compact participant list is `["A", "B", "seed"]`. -/
def mdSeedMatch : MatchData :=
  { metadata := some { participants := some ["A", "B", "seed"] }, info := none }

/-- Synthetic client: player "s" has matches "m1" and "m2" (queue 420),
every other player has an empty match list. -/
def clientTwo : RiotClient :=
  { get_match_history := fun p _ => if p = "s" then some ["m1", "m2"] else some [],
    get_match_details := fun mid =>
      if mid = "m1" ∨ mid = "m2" then some mdPlain else none }

/-- Synthetic client: every player has an empty match list. -/
def clientEmptyHist : RiotClient :=
  { get_match_history := fun _ _ => some [],
    get_match_details := fun _ => none }

/-- Synthetic client: player "seed" has one match "m1" whose participants
are `["A", "B", "seed"]`; players "A" and "B" have empty match lists. -/
def clientC6 : RiotClient :=
  { get_match_history := fun p _ => if p = "seed" then some ["m1"] else some [],
    get_match_details := fun mid => if mid = "m1" then some mdSeedMatch else none }

/-- Synthetic client: player "s" has one match "m450" of queue 450. -/
def clientC3 : RiotClient :=
  { get_match_history := fun p _ => if p = "s" then some ["m450"] else some [],
    get_match_details := fun mid => if mid = "m450" then some md450 else none }

/-- Synthetic client on which every call fails. -/
def clientFail : RiotClient :=
  { get_match_history := fun _ _ => none, get_match_details := fun _ => none }

/-- Crawler with a match cap of 1 over `clientTwo` ("s" has 2 matches). -/
def crawlerC1 : Crawler :=
  { client := clientTwo,
    cfg := { max_puuids := 10, max_matches := 1, matches_per_puuid := 20,
             queue_filter := none },
    setIter := fun l => l }

/-- Crawler with a player cap of 1 over `clientEmptyHist`, used for the
resumed-run scenarios. -/
def crawlerResume : Crawler :=
  { client := clientEmptyHist,
    cfg := { max_puuids := 1, max_matches := 10, matches_per_puuid := 20,
             queue_filter := none },
    setIter := fun l => l }

/-- A state resumed via `load_state` from a saved document whose visited
set is `{"p1"}`. -/
def resumedState : CrawlState :=
  load_state initState
    { metadata := { total_puuids_processed := 1, total_matches_fetched := 0,
                    unique_puuids_discovered := 1, visited_puuids := ["p1"],
                    fetched_match_ids := [] },
      «matches» := none }

/-- Crawler over `clientC6` with caps allowing 3 players, parameterized by
the set-iteration-order oracle. -/
def crawlerC6 (so : List PlayerId → List PlayerId) : Crawler :=
  { client := clientC6,
    cfg := { max_puuids := 3, max_matches := 10, matches_per_puuid := 20,
             queue_filter := none },
    setIter := so }

/-- Crawler over `clientC3` with queue filter `[420]`. -/
def crawlerC3 : Crawler :=
  { client := clientC3,
    cfg := { max_puuids := 10, max_matches := 10, matches_per_puuid := 20,
             queue_filter := some [420] },
    setIter := fun l => l }

/-- Crawler over `clientFail` (all calls fail). -/
def crawlerFail : Crawler :=
  { client := clientFail,
    cfg := { max_puuids := 5, max_matches := 10, matches_per_puuid := 20,
             queue_filter := none },
    setIter := fun l => l }

/-- Crawler over `clientTwo` with the empty-list queue filter. -/
def crawlerC10 : Crawler :=
  { client := clientTwo,
    cfg := { max_puuids := 10, max_matches := 10, matches_per_puuid := 20,
             queue_filter := some [] },
    setIter := fun l => l }

/-! Basic lemmas about `setAdd` (Python `set.add`). -/

theorem mem_setAdd [DecidableEq α] {x a : α} {l : List α} :
    a ∈ setAdd x l ↔ a ∈ l ∨ a = x := by
  unfold setAdd
  split
  · rename_i h
    constructor
    · exact Or.inl
    · rintro (h' | rfl) <;> assumption
  · simp

theorem self_mem_setAdd [DecidableEq α] (x : α) (l : List α) : x ∈ setAdd x l :=
  mem_setAdd.mpr (Or.inr rfl)

theorem mem_setAdd_of_mem [DecidableEq α] {a : α} (x : α) {l : List α}
    (h : a ∈ l) : a ∈ setAdd x l :=
  mem_setAdd.mpr (Or.inl h)

theorem length_setAdd_le [DecidableEq α] (x : α) (l : List α) :
    (setAdd x l).length ≤ l.length + 1 := by
  unfold setAdd
  split <;> simp

theorem length_setAdd_of_not_mem [DecidableEq α] {x : α} {l : List α}
    (h : x ∉ l) : (setAdd x l).length = l.length + 1 := by
  unfold setAdd
  split
  · exact absurd (by assumption) h
  · simp

theorem nodup_setAdd [DecidableEq α] {x : α} {l : List α} (h : l.Nodup) :
    (setAdd x l).Nodup := by
  unfold setAdd
  split
  · exact h
  · rename_i hx
    exact ((List.perm_append_singleton x l).nodup_iff).mpr (List.nodup_cons.mpr ⟨hx, h⟩)

/-! Frame lemmas: which state fields each stage leaves untouched. -/

theorem handleMatch_frame (c : Crawler) (st : CrawlState) (np : List PlayerId)
    (mid : MatchId) :
    (handleMatch c st np mid).1.visited_puuids = st.visited_puuids ∧
    (handleMatch c st np mid).1.puuid_queue = st.puuid_queue ∧
    (handleMatch c st np mid).1.processedOrder = st.processedOrder ∧
    (handleMatch c st np mid).1.enqueueLog = st.enqueueLog := by
  unfold handleMatch
  split
  · exact ⟨rfl, rfl, rfl, rfl⟩
  · split
    · exact ⟨rfl, rfl, rfl, rfl⟩
    · split
      · exact ⟨rfl, rfl, rfl, rfl⟩
      · exact ⟨rfl, rfl, rfl, rfl⟩

theorem handleMatches_frame (c : Crawler) :
    ∀ (mids : List MatchId) (st : CrawlState) (np : List PlayerId),
      ((handleMatches c st np mids).1.visited_puuids = st.visited_puuids ∧
       (handleMatches c st np mids).1.puuid_queue = st.puuid_queue ∧
       (handleMatches c st np mids).1.processedOrder = st.processedOrder ∧
       (handleMatches c st np mids).1.enqueueLog = st.enqueueLog) ∧
      ∀ s ∈ (handleMatches c st np mids).2.2,
        s.visited_puuids = st.visited_puuids ∧
        s.puuid_queue = st.puuid_queue ∧
        s.processedOrder = st.processedOrder ∧
        s.enqueueLog = st.enqueueLog := by
  intro mids
  induction mids with
  | nil => intro st np; simp [handleMatches]
  | cons mid rest ih =>
    intro st np
    have h1 := handleMatch_frame c st np mid
    have h2 := ih (handleMatch c st np mid).1 (handleMatch c st np mid).2
    simp only [handleMatches]
    constructor
    · exact ⟨h2.1.1.trans h1.1, (h2.1.2.1).trans h1.2.1,
        (h2.1.2.2.1).trans h1.2.2.1, (h2.1.2.2.2).trans h1.2.2.2⟩
    · intro s hs
      rcases List.mem_cons.mp hs with rfl | hs'
      · exact h1
      · have := h2.2 s hs'
        exact ⟨this.1.trans h1.1, this.2.1.trans h1.2.1,
          this.2.2.1.trans h1.2.2.1, this.2.2.2.trans h1.2.2.2⟩

theorem enqueueOne_frame (maxP : Nat) (st : CrawlState) (p : PlayerId) :
    (enqueueOne maxP st p).visited_puuids = st.visited_puuids ∧
    (enqueueOne maxP st p).fetched_matches = st.fetched_matches ∧
    (enqueueOne maxP st p).all_matches = st.all_matches ∧
    (enqueueOne maxP st p).processedOrder = st.processedOrder ∧
    (enqueueOne maxP st p).acceptedIds = st.acceptedIds := by
  unfold enqueueOne
  split <;> exact ⟨rfl, rfl, rfl, rfl, rfl⟩

theorem enqueueAll_frame (maxP : Nat) :
    ∀ (l : List PlayerId) (st : CrawlState),
      (enqueueAll maxP st l).visited_puuids = st.visited_puuids ∧
      (enqueueAll maxP st l).fetched_matches = st.fetched_matches ∧
      (enqueueAll maxP st l).all_matches = st.all_matches ∧
      (enqueueAll maxP st l).processedOrder = st.processedOrder ∧
      (enqueueAll maxP st l).acceptedIds = st.acceptedIds := by
  intro l
  induction l with
  | nil => intro st; simp [enqueueAll]
  | cons p rest ih =>
    intro st
    have h1 := enqueueOne_frame maxP st p
    have h2 := ih (enqueueOne maxP st p)
    simp only [enqueueAll]
    exact ⟨h2.1.trans h1.1, h2.2.1.trans h1.2.1, h2.2.2.1.trans h1.2.2.1,
      h2.2.2.2.1.trans h1.2.2.2.1, h2.2.2.2.2.trans h1.2.2.2.2⟩

theorem processPlayer_frame (c : Crawler) (st : CrawlState) (cur : PlayerId) :
    ((processPlayer c st cur).1.visited_puuids = st.visited_puuids ∧
     (processPlayer c st cur).1.processedOrder = st.processedOrder) ∧
    ∀ s ∈ (processPlayer c st cur).2,
      s.visited_puuids = st.visited_puuids ∧
      s.processedOrder = st.processedOrder := by
  unfold processPlayer
  rcases h : c.client.get_match_history cur c.cfg.matches_per_puuid with _ | mids
  · simp
  · simp only []
    split
    · simp
    · have hm := handleMatches_frame c mids st []
      have he := enqueueAll_frame c.cfg.max_puuids
        (c.setIter (handleMatches c st [] mids).2.1) (handleMatches c st [] mids).1
      constructor
      · exact ⟨he.1.trans hm.1.1, he.2.2.2.1.trans hm.1.2.2.1⟩
      · intro s hs
        rcases List.mem_append.mp hs with hs' | hs'
        · have := hm.2 s hs'
          exact ⟨this.1, this.2.2.1⟩
        · rcases List.mem_singleton.mp hs' with rfl
          exact ⟨he.1.trans hm.1.1, he.2.2.2.1.trans hm.1.2.2.1⟩

/-- A duplicate-free list stays duplicate-free after appending a fresh
element. -/
theorem nodup_append_single {α : Type} {l : List α} {x : α}
    (h : l.Nodup) (hx : x ∉ l) : (l ++ [x]).Nodup :=
  ((List.perm_append_singleton x l).nodup_iff).mpr (List.nodup_cons.mpr ⟨hx, h⟩)

/-- Inside `crawl`, `should_fetch_match` is consulted without match data,
where it tests exactly prior membership in FetchedSet. -/
theorem should_fetch_match_none (qf : Option (List Int)) (fetched : List MatchId)
    (mid : MatchId) :
    should_fetch_match qf fetched mid none = true ↔ mid ∉ fetched := by
  unfold should_fetch_match
  split <;> simp_all

/-- Case analysis for one iteration of the per-match loop: either the state
and discovery set are returned untouched, or the match was fetched, was not
previously in FetchedSet, passes the queue filter whenever one is active,
and the state is extended by exactly this match. -/
theorem handleMatch_eq_cases (c : Crawler) (st : CrawlState) (np : List PlayerId)
    (mid : MatchId) :
    handleMatch c st np mid = (st, np) ∨
    ∃ md, c.client.get_match_details mid = some md ∧
      mid ∉ st.fetched_matches ∧
      (filterTruthy c.cfg.queue_filter = true →
        queueAllowed c.cfg.queue_filter md = true) ∧
      (handleMatch c st np mid).1 = { st with
        fetched_matches := setAdd mid st.fetched_matches,
        all_matches := st.all_matches ++ [md],
        acceptedIds := st.acceptedIds ++ [mid] } := by
  unfold handleMatch
  split
  · exact Or.inl rfl
  · rename_i hsf
    have hsf' : should_fetch_match c.cfg.queue_filter st.fetched_matches mid none
        = true := by
      simpa using hsf
    have hmem : mid ∉ st.fetched_matches :=
      (should_fetch_match_none _ _ _).mp hsf'
    split
    · exact Or.inl rfl
    · rename_i md hdet
      split
      · exact Or.inl rfl
      · rename_i hflt
        refine Or.inr ⟨md, hdet, hmem, ?_, rfl⟩
        intro hft
        cases hqa : queueAllowed c.cfg.queue_filter md
        · exact absurd (by rw [hft, hqa]; rfl) hflt
        · rfl

/-- Elements accumulated into `new_participants` either were already there
or are truthy puuids not in the visited set. -/
theorem foldl_newParts_mem (V : List PlayerId) :
    ∀ (parts acc : List PlayerId) (p : PlayerId),
      p ∈ parts.foldl
        (fun acc q => if q ≠ "" ∧ q ∉ V then setAdd q acc else acc) acc →
      p ∈ acc ∨ (p ≠ "" ∧ p ∉ V) := by
  intro parts
  induction parts with
  | nil => intro acc p hp; exact Or.inl hp
  | cons q rest ih =>
    intro acc p hp
    rw [List.foldl_cons] at hp
    rcases ih _ p hp with h | h
    · by_cases hq : q ≠ "" ∧ q ∉ V
      · rw [if_pos hq] at h
        rcases mem_setAdd.mp h with h' | rfl
        · exact Or.inl h'
        · exact Or.inr hq
      · rw [if_neg hq] at h
        exact Or.inl h
    · exact Or.inr h

/-- One per-match iteration only ever adds unvisited, truthy puuids to the
discovery set. -/
theorem handleMatch_np_mem (c : Crawler) (st : CrawlState) (np : List PlayerId)
    (mid : MatchId) :
    ∀ p ∈ (handleMatch c st np mid).2, p ∈ np ∨ (p ≠ "" ∧ p ∉ st.visited_puuids) := by
  unfold handleMatch
  split
  · intro p hp; exact Or.inl hp
  · split
    · intro p hp; exact Or.inl hp
    · rename_i md hdet
      split
      · intro p hp; exact Or.inl hp
      · intro p hp
        exact foldl_newParts_mem st.visited_puuids (extract_participants md) np p hp

/-- The whole per-match loop only ever adds unvisited, truthy puuids to the
discovery set. -/
theorem handleMatches_np_mem (c : Crawler) :
    ∀ (mids : List MatchId) (st : CrawlState) (np : List PlayerId),
      ∀ p ∈ (handleMatches c st np mids).2.1,
        p ∈ np ∨ (p ≠ "" ∧ p ∉ st.visited_puuids) := by
  intro mids
  induction mids with
  | nil => intro st np p hp; exact Or.inl hp
  | cons mid rest ih =>
    intro st np p hp
    simp only [handleMatches] at hp
    have h2 := ih (handleMatch c st np mid).1 (handleMatch c st np mid).2 p hp
    have hv := (handleMatch_frame c st np mid).1
    rcases h2 with h | h
    · rcases handleMatch_np_mem c st np mid p h with h' | h'
      · exact Or.inl h'
      · exact Or.inr h'
    · rw [hv] at h
      exact Or.inr h

/-- Generic invariant preservation for the crawl loop: any predicate
preserved by the dequeue-skip step, the dequeue-mark step, and a player's
round holds at the final state and at every observation state. -/
theorem crawlLoop_inv (c : Crawler) (P : CrawlState → Prop)
    (hskip : ∀ (st : CrawlState) (cur : PlayerId) (rest : List PlayerId),
      st.puuid_queue = cur :: rest → cur ∈ st.visited_puuids → P st →
      P { st with puuid_queue := rest })
    (hmark : ∀ (st : CrawlState) (cur : PlayerId) (rest : List PlayerId),
      st.puuid_queue = cur :: rest → cur ∉ st.visited_puuids → P st →
      P { st with puuid_queue := rest,
                  visited_puuids := setAdd cur st.visited_puuids,
                  processedOrder := st.processedOrder ++ [cur] })
    (hproc : ∀ (st : CrawlState) (cur : PlayerId), cur ∈ st.visited_puuids → P st →
      P (processPlayer c st cur).1 ∧ ∀ s ∈ (processPlayer c st cur).2, P s) :
    ∀ (fuel processed : Nat) (st : CrawlState), P st →
      P (crawlLoop c fuel processed st).2.1 ∧
      ∀ s ∈ (crawlLoop c fuel processed st).2.2, P s := by
  intro fuel
  induction fuel with
  | zero =>
    intro processed st hP
    exact ⟨hP, by intro s hs; simp [crawlLoop] at hs⟩
  | succ fuel ih =>
    intro processed st hP
    rw [crawlLoop]
    split
    · exact ⟨hP, by intro s hs; simp at hs⟩
    · rename_i cur rest hq
      split
      · split
        · exact ⟨hP, by intro s hs; simp at hs⟩
        · split
          · rename_i hlt hnm hv
            have hP1 := hskip st cur rest hq hv hP
            have hrec := ih processed { st with puuid_queue := rest } hP1
            refine ⟨hrec.1, ?_⟩
            intro s hs
            rcases List.mem_cons.mp hs with rfl | hs'
            · exact hP1
            · exact hrec.2 s hs'
          · rename_i hlt hnm hv
            have hP2 := hmark st cur rest hq hv hP
            have hpr := hproc _ cur (self_mem_setAdd cur st.visited_puuids) hP2
            have hrec := ih (processed + 1) _ hpr.1
            refine ⟨hrec.1, ?_⟩
            intro s hs
            rcases List.mem_cons.mp hs with rfl | hs'
            · exact hP2
            · rcases List.mem_append.mp hs' with hs'' | hs''
              · exact hpr.2 s hs''
              · exact hrec.2 s hs''
      · exact ⟨hP, by intro s hs; simp at hs⟩

/-- Generic invariant over the full trace of `crawl`: if the predicate
holds after the initial seed enqueue (and at the initial state) and is
preserved by every loop step, it holds at every observation state. -/
theorem crawl_trace_inv (c : Crawler) (P : CrawlState → Prop)
    (hskip : ∀ (st : CrawlState) (cur : PlayerId) (rest : List PlayerId),
      st.puuid_queue = cur :: rest → cur ∈ st.visited_puuids → P st →
      P { st with puuid_queue := rest })
    (hmark : ∀ (st : CrawlState) (cur : PlayerId) (rest : List PlayerId),
      st.puuid_queue = cur :: rest → cur ∉ st.visited_puuids → P st →
      P { st with puuid_queue := rest,
                  visited_puuids := setAdd cur st.visited_puuids,
                  processedOrder := st.processedOrder ++ [cur] })
    (hproc : ∀ (st : CrawlState) (cur : PlayerId), cur ∈ st.visited_puuids → P st →
      P (processPlayer c st cur).1 ∧ ∀ s ∈ (processPlayer c st cur).2, P s)
    (fuel : Nat) (st0 : CrawlState) (seed : PlayerId)
    (hP0 : P st0)
    (hseed : P { st0 with puuid_queue := st0.puuid_queue ++ [seed] }) :
    ∀ s ∈ crawlTrace c fuel st0 seed, P s := by
  intro s hs
  have hloop := crawlLoop_inv c P hskip hmark hproc fuel 0
    { st0 with puuid_queue := st0.puuid_queue ++ [seed] } hseed
  unfold crawlTrace crawl at hs
  rcases List.mem_cons.mp hs with rfl | hs1
  · exact hP0
  · rcases List.mem_cons.mp hs1 with rfl | hs2
    · exact hseed
    · rcases List.mem_append.mp hs2 with hs3 | hs3
      · exact hloop.2 s hs3
      · rcases List.mem_singleton.mp hs3 with rfl
        exact hloop.1

/-- The visited set only grows during the loop. -/
theorem crawlLoop_visited_mono (c : Crawler) (fuel processed : Nat) (st : CrawlState)
    (a : PlayerId) (ha : a ∈ st.visited_puuids) :
    a ∈ (crawlLoop c fuel processed st).2.1.visited_puuids :=
  (crawlLoop_inv c (fun s => a ∈ s.visited_puuids)
    (fun _ _ _ _ _ h => h)
    (fun _ cur _ _ _ h => mem_setAdd_of_mem cur h)
    (fun st' cur _ h =>
      ⟨by
        show a ∈ (processPlayer c st' cur).1.visited_puuids
        rw [(processPlayer_frame c st' cur).1.1]
        exact h,
       fun s hs => by
        show a ∈ s.visited_puuids
        rw [((processPlayer_frame c st' cur).2 s hs).1]
        exact h⟩)
    fuel processed st ha).1

/-- Per-run growth bound on the visited set: from a state reached with
`processed` players already counted this run, the visited set grows by at
most `max_puuids - processed` further elements. -/
theorem crawlLoop_visited_le (c : Crawler) :
    ∀ (fuel processed : Nat) (st : CrawlState),
      (crawlLoop c fuel processed st).2.1.visited_puuids.length
        ≤ st.visited_puuids.length + (c.cfg.max_puuids - processed) ∧
      ∀ s ∈ (crawlLoop c fuel processed st).2.2,
        s.visited_puuids.length
          ≤ st.visited_puuids.length + (c.cfg.max_puuids - processed) := by
  intro fuel
  induction fuel with
  | zero =>
    intro processed st
    refine ⟨?_, ?_⟩
    · dsimp only [crawlLoop]
      omega
    · intro s hs
      simp [crawlLoop] at hs
  | succ fuel ih =>
    intro processed st
    rw [crawlLoop]
    split
    · refine ⟨?_, ?_⟩
      · dsimp only
        omega
      · intro s hs
        simp at hs
    · rename_i cur rest hq
      split
      · split
        · refine ⟨?_, ?_⟩
          · dsimp only
            omega
          · intro s hs
            simp at hs
        · split
          · rename_i hlt hnm hv
            have hrec := ih processed { st with puuid_queue := rest }
            dsimp only at hrec ⊢
            refine ⟨hrec.1, ?_⟩
            intro s hs
            rcases List.mem_cons.mp hs with rfl | hs'
            · dsimp only
              omega
            · exact hrec.2 s hs'
          · rename_i hlt hnm hv
            have hlen : (setAdd cur st.visited_puuids).length
                = st.visited_puuids.length + 1 :=
              length_setAdd_of_not_mem hv
            have hfr := processPlayer_frame c
              { st with puuid_queue := rest,
                        visited_puuids := setAdd cur st.visited_puuids,
                        processedOrder := st.processedOrder ++ [cur] } cur
            have hrec := ih (processed + 1)
              (processPlayer c
                { st with puuid_queue := rest,
                          visited_puuids := setAdd cur st.visited_puuids,
                          processedOrder := st.processedOrder ++ [cur] } cur).1
            dsimp only at hfr hrec ⊢
            constructor
            · have h1 := hrec.1
              rw [hfr.1.1, hlen] at h1
              omega
            · intro s hs
              rcases List.mem_cons.mp hs with rfl | hs'
              · dsimp only
                omega
              · rcases List.mem_append.mp hs' with hs'' | hs''
                · have hv2 := (hfr.2 s hs'').1
                  rw [hv2, hlen]
                  omega
                · have h2 := hrec.2 s hs''
                  rw [hfr.1.1, hlen] at h2
                  omega
      · refine ⟨?_, ?_⟩
        · dsimp only
          omega
        · intro s hs
          simp at hs

/-- One per-match iteration grows FetchedSet by at most one element. -/
theorem handleMatch_fetched_le (c : Crawler) (st : CrawlState) (np : List PlayerId)
    (mid : MatchId) :
    (handleMatch c st np mid).1.fetched_matches.length
      ≤ st.fetched_matches.length + 1 := by
  rcases handleMatch_eq_cases c st np mid with h | ⟨md, _, _, _, h⟩
  · rw [h]
    dsimp only
    omega
  · rw [h]
    exact length_setAdd_le mid st.fetched_matches

/-- The per-match loop grows FetchedSet by at most the number of listed
match ids, at every intermediate state. -/
theorem handleMatches_fetched_le (c : Crawler) :
    ∀ (mids : List MatchId) (st : CrawlState) (np : List PlayerId),
      (handleMatches c st np mids).1.fetched_matches.length
        ≤ st.fetched_matches.length + mids.length ∧
      ∀ s ∈ (handleMatches c st np mids).2.2,
        s.fetched_matches.length ≤ st.fetched_matches.length + mids.length := by
  intro mids
  induction mids with
  | nil =>
    intro st np
    exact ⟨by simp [handleMatches], by intro s hs; simp [handleMatches] at hs⟩
  | cons mid rest ih =>
    intro st np
    have h1 := handleMatch_fetched_le c st np mid
    have h2 := ih (handleMatch c st np mid).1 (handleMatch c st np mid).2
    simp only [handleMatches]
    constructor
    · have := h2.1
      simp only [List.length_cons]
      omega
    · intro s hs
      rcases List.mem_cons.mp hs with rfl | hs'
      · simp only [List.length_cons]
        omega
      · have := h2.2 s hs'
        simp only [List.length_cons]
        omega

/-- One player's round grows FetchedSet by at most `matches_per_puuid`,
provided the client honours the requested count for this player. -/
theorem processPlayer_fetched_le (c : Crawler) (st : CrawlState) (cur : PlayerId)
    (hlen : ∀ l, c.client.get_match_history cur c.cfg.matches_per_puuid = some l →
      l.length ≤ c.cfg.matches_per_puuid) :
    (processPlayer c st cur).1.fetched_matches.length
      ≤ st.fetched_matches.length + c.cfg.matches_per_puuid ∧
    ∀ s ∈ (processPlayer c st cur).2,
      s.fetched_matches.length
        ≤ st.fetched_matches.length + c.cfg.matches_per_puuid := by
  unfold processPlayer
  rcases h : c.client.get_match_history cur c.cfg.matches_per_puuid with _ | mids
  · refine ⟨?_, ?_⟩
    · dsimp only
      omega
    · intro s hs
      simp at hs
  · dsimp only
    split
    · refine ⟨?_, ?_⟩
      · dsimp only
        omega
      · intro s hs
        simp at hs
    · have hm := handleMatches_fetched_le c mids st []
      have hb : mids.length ≤ c.cfg.matches_per_puuid := hlen mids h
      have he := enqueueAll_frame c.cfg.max_puuids
        (c.setIter (handleMatches c st [] mids).2.1) (handleMatches c st [] mids).1
      refine ⟨?_, ?_⟩
      · have h1 := hm.1
        rw [he.2.1]
        omega
      · intro s hs
        rcases List.mem_append.mp hs with hs' | hs'
        · have := hm.2 s hs'
          omega
        · rcases List.mem_singleton.mp hs' with rfl
          have h1 := hm.1
          rw [he.2.1]
          omega

/-- The match cap is re-checked only at the top of each player round, so
across the whole loop FetchedSet is bounded by its starting size or by
`max_matches - 1` plus one round's worth of fetches, whichever is larger —
at every observation state. -/
theorem crawlLoop_fetched_le (c : Crawler)
    (hlen : ∀ (p : PlayerId) (l : List MatchId),
      c.client.get_match_history p c.cfg.matches_per_puuid = some l →
      l.length ≤ c.cfg.matches_per_puuid) :
    ∀ (fuel processed : Nat) (st : CrawlState),
      (crawlLoop c fuel processed st).2.1.fetched_matches.length
        ≤ max st.fetched_matches.length
            (c.cfg.max_matches - 1 + c.cfg.matches_per_puuid) ∧
      ∀ s ∈ (crawlLoop c fuel processed st).2.2,
        s.fetched_matches.length
          ≤ max st.fetched_matches.length
              (c.cfg.max_matches - 1 + c.cfg.matches_per_puuid) := by
  intro fuel
  induction fuel with
  | zero =>
    intro processed st
    refine ⟨?_, ?_⟩
    · dsimp only [crawlLoop]
      exact le_max_left _ _
    · intro s hs
      simp [crawlLoop] at hs
  | succ fuel ih =>
    intro processed st
    rw [crawlLoop]
    split
    · refine ⟨?_, ?_⟩
      · dsimp only
        exact le_max_left _ _
      · intro s hs
        simp at hs
    · rename_i cur rest hq
      split
      · split
        · refine ⟨?_, ?_⟩
          · dsimp only
            exact le_max_left _ _
          · intro s hs
            simp at hs
        · split
          · rename_i hlt hnm hv
            have hrec := ih processed { st with puuid_queue := rest }
            dsimp only at hrec ⊢
            refine ⟨hrec.1, ?_⟩
            intro s hs
            rcases List.mem_cons.mp hs with rfl | hs'
            · dsimp only
              exact le_max_left _ _
            · exact hrec.2 s hs'
          · rename_i hlt hnm hv
            have hcap : st.fetched_matches.length < c.cfg.max_matches := by omega
            have hp := processPlayer_fetched_le c
              { st with puuid_queue := rest,
                        visited_puuids := setAdd cur st.visited_puuids,
                        processedOrder := st.processedOrder ++ [cur] } cur
              (fun l hl => hlen cur l hl)
            dsimp only at hp ⊢
            have hpB : (processPlayer c
                { st with puuid_queue := rest,
                          visited_puuids := setAdd cur st.visited_puuids,
                          processedOrder := st.processedOrder ++ [cur] }
                cur).1.fetched_matches.length
                ≤ c.cfg.max_matches - 1 + c.cfg.matches_per_puuid := by
              have := hp.1
              omega
            have hrec := ih (processed + 1)
              (processPlayer c
                { st with puuid_queue := rest,
                          visited_puuids := setAdd cur st.visited_puuids,
                          processedOrder := st.processedOrder ++ [cur] } cur).1
            have hrecB := hrec.1.trans (max_le hpB (le_refl _))
            refine ⟨hrecB.trans (le_max_right _ _), ?_⟩
            intro s hs
            rcases List.mem_cons.mp hs with rfl | hs'
            · dsimp only
              exact le_max_left _ _
            · rcases List.mem_append.mp hs' with hs'' | hs''
              · have := hp.2 s hs''
                have hsB : s.fetched_matches.length
                    ≤ c.cfg.max_matches - 1 + c.cfg.matches_per_puuid := by omega
                exact hsB.trans (le_max_right _ _)
              · have := (hrec.2 s hs'').trans (max_le hpB (le_refl _))
                exact this.trans (le_max_right _ _)
      · refine ⟨?_, ?_⟩
        · dsimp only
          exact le_max_left _ _
        · intro s hs
          simp at hs

/-- The conjunction of ghost-variable facts maintained by the loop: the
processing log is duplicate-free and within the visited set, the
acceptance log is duplicate-free and within FetchedSet, and no logged
frontier append concerned an already-visited player. -/
def GhostInv (st : CrawlState) : Prop :=
  st.processedOrder.Nodup ∧
  (∀ p ∈ st.processedOrder, p ∈ st.visited_puuids) ∧
  st.acceptedIds.Nodup ∧
  (∀ a ∈ st.acceptedIds, a ∈ st.fetched_matches) ∧
  (∀ pb ∈ st.enqueueLog, pb.2 = false)

theorem handleMatch_ghost (c : Crawler) (st : CrawlState) (np : List PlayerId)
    (mid : MatchId) (h : GhostInv st) : GhostInv (handleMatch c st np mid).1 := by
  rcases handleMatch_eq_cases c st np mid with heq | ⟨md, hdet, hmem, hqa, heq⟩
  · rw [heq]
    exact h
  · rw [heq]
    refine ⟨h.1, h.2.1, ?_, ?_, h.2.2.2.2⟩
    · exact nodup_append_single h.2.2.1 (fun hin => hmem (h.2.2.2.1 mid hin))
    · intro a ha
      rcases List.mem_append.mp ha with ha' | ha'
      · exact mem_setAdd_of_mem mid (h.2.2.2.1 a ha')
      · rcases List.mem_singleton.mp ha' with rfl
        exact self_mem_setAdd a st.fetched_matches

theorem handleMatches_ghost (c : Crawler) :
    ∀ (mids : List MatchId) (st : CrawlState) (np : List PlayerId),
      GhostInv st →
      GhostInv (handleMatches c st np mids).1 ∧
      ∀ s ∈ (handleMatches c st np mids).2.2, GhostInv s := by
  intro mids
  induction mids with
  | nil =>
    intro st np h
    exact ⟨h, by intro s hs; simp [handleMatches] at hs⟩
  | cons mid rest ih =>
    intro st np h
    have h1 := handleMatch_ghost c st np mid h
    have h2 := ih (handleMatch c st np mid).1 (handleMatch c st np mid).2 h1
    simp only [handleMatches]
    refine ⟨h2.1, ?_⟩
    intro s hs
    rcases List.mem_cons.mp hs with rfl | hs'
    · exact h1
    · exact h2.2 s hs'

theorem enqueueOne_ghost (maxP : Nat) (st : CrawlState) (p : PlayerId)
    (h : GhostInv st) (hp : p ∉ st.visited_puuids) :
    GhostInv (enqueueOne maxP st p) := by
  unfold enqueueOne
  split
  · refine ⟨h.1, h.2.1, h.2.2.1, h.2.2.2.1, ?_⟩
    intro pb hpb
    rcases List.mem_append.mp hpb with hpb' | hpb'
    · exact h.2.2.2.2 pb hpb'
    · rcases List.mem_singleton.mp hpb' with rfl
      exact decide_eq_false hp
  · exact h

theorem enqueueAll_ghost (maxP : Nat) :
    ∀ (l : List PlayerId) (st : CrawlState),
      GhostInv st → (∀ p ∈ l, p ∉ st.visited_puuids) →
      GhostInv (enqueueAll maxP st l) := by
  intro l
  induction l with
  | nil => intro st h _; exact h
  | cons p rest ih =>
    intro st h hl
    have h1 := enqueueOne_ghost maxP st p h (hl p (List.mem_cons_self p rest))
    have hvis := (enqueueOne_frame maxP st p).1
    refine ih (enqueueOne maxP st p) h1 ?_
    intro q hq
    rw [hvis]
    exact hl q (List.mem_cons_of_mem p hq)

theorem processPlayer_ghost (c : Crawler) (st : CrawlState) (cur : PlayerId)
    (hsi : ∀ l, (c.setIter l).Perm l) (h : GhostInv st) :
    GhostInv (processPlayer c st cur).1 ∧
    ∀ s ∈ (processPlayer c st cur).2, GhostInv s := by
  unfold processPlayer
  rcases hh : c.client.get_match_history cur c.cfg.matches_per_puuid with _ | mids
  · exact ⟨h, by intro s hs; simp at hs⟩
  · dsimp only
    split
    · exact ⟨h, by intro s hs; simp at hs⟩
    · have hm := handleMatches_ghost c mids st [] h
      have hnp : ∀ p ∈ c.setIter (handleMatches c st [] mids).2.1,
          p ∉ (handleMatches c st [] mids).1.visited_puuids := by
        intro p hp
        have hp' := (hsi (handleMatches c st [] mids).2.1).mem_iff.mp hp
        rcases handleMatches_np_mem c mids st [] p hp' with h' | h'
        · simp at h'
        · rw [(handleMatches_frame c mids st []).1.1]
          exact h'.2
      have he := enqueueAll_ghost c.cfg.max_puuids
        (c.setIter (handleMatches c st [] mids).2.1)
        (handleMatches c st [] mids).1 hm.1 hnp
      refine ⟨he, ?_⟩
      intro s hs
      rcases List.mem_append.mp hs with hs' | hs'
      · exact hm.2 s hs'
      · rcases List.mem_singleton.mp hs' with rfl
        exact he

/-- The ghost invariant holds along the whole trace of any run whose
set-iteration oracle is a genuine set iteration (a permutation). -/
theorem crawl_ghost (c : Crawler) (fuel : Nat) (st0 : CrawlState) (seed : PlayerId)
    (hsi : ∀ l, (c.setIter l).Perm l) (h0 : GhostInv st0) :
    ∀ s ∈ crawlTrace c fuel st0 seed, GhostInv s := by
  refine crawl_trace_inv c GhostInv ?_ ?_ ?_ fuel st0 seed h0 h0
  · exact fun _ _ _ _ _ h => h
  · intro st cur rest hq hv h
    refine ⟨?_, ?_, h.2.2.1, h.2.2.2.1, h.2.2.2.2⟩
    · exact nodup_append_single h.1 (fun hin => hv (h.2.1 cur hin))
    · intro p hp
      rcases List.mem_append.mp hp with hp' | hp'
      · exact mem_setAdd_of_mem cur (h.2.1 p hp')
      · rcases List.mem_singleton.mp hp' with rfl
        exact self_mem_setAdd p st.visited_puuids
  · intro st' cur _ h
    exact processPlayer_ghost c st' cur hsi h

/-- Every corpus entry beyond the run's initial state passes the queue
filter, and every FetchedSet entry beyond the initial state is the id of a
successfully fetched, filter-passing match. -/
def FilteredInv (qf : Option (List Int)) (client : RiotClient) (base st : CrawlState) :
    Prop :=
  (∀ md ∈ st.all_matches, md ∈ base.all_matches ∨ queueAllowed qf md = true) ∧
  (∀ mid ∈ st.fetched_matches, mid ∈ base.fetched_matches ∨
    ∃ md, client.get_match_details mid = some md ∧ queueAllowed qf md = true)

theorem handleMatch_filtered (c : Crawler) (base st : CrawlState)
    (np : List PlayerId) (mid : MatchId)
    (hft : filterTruthy c.cfg.queue_filter = true)
    (h : FilteredInv c.cfg.queue_filter c.client base st) :
    FilteredInv c.cfg.queue_filter c.client base (handleMatch c st np mid).1 := by
  rcases handleMatch_eq_cases c st np mid with heq | ⟨md, hdet, hmem, hqa, heq⟩
  · rw [heq]
    exact h
  · rw [heq]
    refine ⟨?_, ?_⟩
    · intro md' hmd'
      rcases List.mem_append.mp hmd' with h' | h'
      · exact h.1 md' h'
      · rcases List.mem_singleton.mp h' with rfl
        exact Or.inr (hqa hft)
    · intro mid' hmid'
      rcases mem_setAdd.mp hmid' with h' | rfl
      · exact h.2 mid' h'
      · exact Or.inr ⟨md, hdet, hqa hft⟩

theorem handleMatches_filtered (c : Crawler) (base : CrawlState)
    (hft : filterTruthy c.cfg.queue_filter = true) :
    ∀ (mids : List MatchId) (st : CrawlState) (np : List PlayerId),
      FilteredInv c.cfg.queue_filter c.client base st →
      FilteredInv c.cfg.queue_filter c.client base (handleMatches c st np mids).1 ∧
      ∀ s ∈ (handleMatches c st np mids).2.2,
        FilteredInv c.cfg.queue_filter c.client base s := by
  intro mids
  induction mids with
  | nil =>
    intro st np h
    exact ⟨h, by intro s hs; simp [handleMatches] at hs⟩
  | cons mid rest ih =>
    intro st np h
    have h1 := handleMatch_filtered c base st np mid hft h
    have h2 := ih (handleMatch c st np mid).1 (handleMatch c st np mid).2 h1
    simp only [handleMatches]
    refine ⟨h2.1, ?_⟩
    intro s hs
    rcases List.mem_cons.mp hs with rfl | hs'
    · exact h1
    · exact h2.2 s hs'

theorem processPlayer_filtered (c : Crawler) (base st : CrawlState) (cur : PlayerId)
    (hft : filterTruthy c.cfg.queue_filter = true)
    (h : FilteredInv c.cfg.queue_filter c.client base st) :
    FilteredInv c.cfg.queue_filter c.client base (processPlayer c st cur).1 ∧
    ∀ s ∈ (processPlayer c st cur).2,
      FilteredInv c.cfg.queue_filter c.client base s := by
  unfold processPlayer
  rcases hh : c.client.get_match_history cur c.cfg.matches_per_puuid with _ | mids
  · exact ⟨h, by intro s hs; simp at hs⟩
  · dsimp only
    split
    · exact ⟨h, by intro s hs; simp at hs⟩
    · have hm := handleMatches_filtered c base hft mids st [] h
      have he := enqueueAll_frame c.cfg.max_puuids
        (c.setIter (handleMatches c st [] mids).2.1) (handleMatches c st [] mids).1
      have he2 : FilteredInv c.cfg.queue_filter c.client base
          (enqueueAll c.cfg.max_puuids (handleMatches c st [] mids).1
            (c.setIter (handleMatches c st [] mids).2.1)) := by
        refine ⟨?_, ?_⟩
        · rw [he.2.2.1]
          exact hm.1.1
        · rw [he.2.1]
          exact hm.1.2
      refine ⟨he2, ?_⟩
      intro s hs
      rcases List.mem_append.mp hs with hs' | hs'
      · exact hm.2 s hs'
      · rcases List.mem_singleton.mp hs' with rfl
        exact he2

/-- C3 core: along the whole trace of any run with a truthy queue filter,
corpus entries and fetched ids beyond the initial state pass the filter. -/
theorem crawl_filtered (c : Crawler) (fuel : Nat) (st0 : CrawlState) (seed : PlayerId)
    (hft : filterTruthy c.cfg.queue_filter = true) :
    ∀ s ∈ crawlTrace c fuel st0 seed,
      FilteredInv c.cfg.queue_filter c.client st0 s := by
  have h0 : FilteredInv c.cfg.queue_filter c.client st0 st0 :=
    ⟨fun md hmd => Or.inl hmd, fun mid hmid => Or.inl hmid⟩
  refine crawl_trace_inv c (FilteredInv c.cfg.queue_filter c.client st0)
    ?_ ?_ ?_ fuel st0 seed h0 h0
  · exact fun _ _ _ _ _ h => h
  · exact fun _ _ _ _ _ h => h
  · intro st' cur _ h
    exact processPlayer_filtered c st0 st' cur hft h

/-- The enqueue-time cap invariant: the visited set and the frontier never
jointly exceed the player cap. -/
def SumInv (maxP : Nat) (st : CrawlState) : Prop :=
  st.visited_puuids.length + st.puuid_queue.length ≤ maxP

theorem enqueueOne_sum (maxP : Nat) (st : CrawlState) (p : PlayerId)
    (h : SumInv maxP st) : SumInv maxP (enqueueOne maxP st p) := by
  unfold enqueueOne SumInv
  split
  · rename_i hlt
    simp only [List.length_append, List.length_singleton]
    omega
  · exact h

theorem enqueueAll_sum (maxP : Nat) :
    ∀ (l : List PlayerId) (st : CrawlState),
      SumInv maxP st → SumInv maxP (enqueueAll maxP st l) := by
  intro l
  induction l with
  | nil => intro st h; exact h
  | cons p rest ih =>
    intro st h
    exact ih (enqueueOne maxP st p) (enqueueOne_sum maxP st p h)

theorem processPlayer_sum (c : Crawler) (st : CrawlState) (cur : PlayerId)
    (h : SumInv c.cfg.max_puuids st) :
    SumInv c.cfg.max_puuids (processPlayer c st cur).1 ∧
    ∀ s ∈ (processPlayer c st cur).2, SumInv c.cfg.max_puuids s := by
  unfold processPlayer
  rcases hh : c.client.get_match_history cur c.cfg.matches_per_puuid with _ | mids
  · exact ⟨h, by intro s hs; simp at hs⟩
  · dsimp only
    split
    · exact ⟨h, by intro s hs; simp at hs⟩
    · have hm := handleMatches_frame c mids st []
      have hmzum : SumInv c.cfg.max_puuids (handleMatches c st [] mids).1 := by
        unfold SumInv
        rw [hm.1.1, hm.1.2.1]
        exact h
      have he := enqueueAll_sum c.cfg.max_puuids
        (c.setIter (handleMatches c st [] mids).2.1)
        (handleMatches c st [] mids).1 hmzum
      refine ⟨he, ?_⟩
      intro s hs
      rcases List.mem_append.mp hs with hs' | hs'
      · have := hm.2 s hs'
        unfold SumInv
        rw [this.1, this.2.1]
        exact h
      · rcases List.mem_singleton.mp hs' with rfl
        exact he

/-- C5 core: the cap-sum invariant is preserved along the whole trace once
it holds after the seed enqueue. -/
theorem crawl_sum (c : Crawler) (fuel : Nat) (st0 : CrawlState) (seed : PlayerId)
    (h0 : SumInv c.cfg.max_puuids st0)
    (hseed : SumInv c.cfg.max_puuids
      { st0 with puuid_queue := st0.puuid_queue ++ [seed] }) :
    ∀ s ∈ crawlTrace c fuel st0 seed, SumInv c.cfg.max_puuids s := by
  refine crawl_trace_inv c (SumInv c.cfg.max_puuids) ?_ ?_ ?_ fuel st0 seed h0 hseed
  · intro st cur rest hq _ h
    unfold SumInv at h ⊢
    rw [hq] at h
    simp only [List.length_cons] at h
    dsimp only
    omega
  · intro st cur rest hq hv h
    unfold SumInv at h ⊢
    rw [hq] at h
    simp only [List.length_cons] at h
    dsimp only
    rw [length_setAdd_of_not_mem hv]
    omega
  · intro st' cur _ h
    exact processPlayer_sum c st' cur h

/-- The final state of a run is one of its observation states. -/
theorem crawlFinal_mem_trace (c : Crawler) (fuel : Nat) (st0 : CrawlState)
    (seed : PlayerId) :
    crawlFinal c fuel st0 seed ∈ crawlTrace c fuel st0 seed := by
  unfold crawlFinal crawlTrace crawl
  simp

/-- C1 counterexample: with `max_matches = 1` and a seed whose round lists
two fetchable matches, the run reaches an observation state (indeed its
final state) where FetchedSet holds 2 > 1 ids: the match cap is only
checked between player rounds, not between the individual match-detail
fetches inside one round. -/
theorem c1_counterexample :
    ∃ s ∈ crawlTrace crawlerC1 5 initState "s",
      crawlerC1.cfg.max_matches < s.fetched_matches.length := by
  decide

/-- C1 (amended): in a fresh run, `|FetchedSet| < max_matches` holds at the
start of every player round, and at every observation point
`|FetchedSet| ≤ max_matches - 1 + matches_per_puuid`, provided the client
returns at most `matches_per_puuid` ids per listing; within a round the
cap itself can be overshot (see the counterexample). -/
theorem c1_amended :
    ∀ (c : Crawler) (fuel : Nat) (seed : PlayerId),
      (∀ (p : PlayerId) (l : List MatchId),
        c.client.get_match_history p c.cfg.matches_per_puuid = some l →
        l.length ≤ c.cfg.matches_per_puuid) →
      ∀ s ∈ crawlTrace c fuel initState seed,
        s.fetched_matches.length
          ≤ c.cfg.max_matches - 1 + c.cfg.matches_per_puuid := by
  intro c fuel seed hlen s hs
  have hloop := crawlLoop_fetched_le c hlen fuel 0
    { initState with puuid_queue := initState.puuid_queue ++ [seed] }
  unfold crawlTrace crawl at hs
  rcases List.mem_cons.mp hs with rfl | hs1
  · simp [initState]
  · rcases List.mem_cons.mp hs1 with rfl | hs2
    · simp [initState]
    · rcases List.mem_append.mp hs2 with hs3 | hs3
      · simpa [initState] using hloop.2 s hs3
      · rcases List.mem_singleton.mp hs3 with rfl
        simpa [initState] using hloop.1

/-- C1 witness: the amended bound evaluated on the concrete two-match
scenario. -/
theorem c1_witness :
    (crawlFinal crawlerC1 5 initState "s").fetched_matches.length
      ≤ crawlerC1.cfg.max_matches - 1 + crawlerC1.cfg.matches_per_puuid := by
  refine c1_amended crawlerC1 5 "s" ?_ _ (crawlFinal_mem_trace crawlerC1 5 initState "s")
  intro p l h
  simp only [crawlerC1, clientTwo] at h
  split at h <;> (injection h with h'; subst h'; decide)

/-- C2 counterexample: a run resumed from a loaded state with one visited
player and `max_puuids = 1` processes a fresh seed anyway (the loop
compares the per-run `processed_count`, which restarts at 0, against the
cap), so VisitedSet grows to 2 > 1. -/
theorem c2_counterexample :
    ∃ s ∈ crawlTrace crawlerResume 5 resumedState "p2",
      crawlerResume.cfg.max_puuids < s.visited_puuids.length := by
  decide

/-- C2 (amended): at every observation point of every run,
`|VisitedSet|` never exceeds its size at the start of the run plus
`max_puuids`; in a fresh run this specialises to
`|VisitedSet| ≤ max_puuids`.  A resumed run can exceed the bare cap by the
loaded set's size (see the counterexample). -/
theorem c2_amended :
    ∀ (c : Crawler) (fuel : Nat) (st0 : CrawlState) (seed : PlayerId),
      ∀ s ∈ crawlTrace c fuel st0 seed,
        s.visited_puuids.length ≤ st0.visited_puuids.length + c.cfg.max_puuids ∧
        (st0 = initState → s.visited_puuids.length ≤ c.cfg.max_puuids) := by
  intro c fuel st0 seed s hs
  have hloop := crawlLoop_visited_le c fuel 0
    { st0 with puuid_queue := st0.puuid_queue ++ [seed] }
  have hmain : s.visited_puuids.length
      ≤ st0.visited_puuids.length + c.cfg.max_puuids := by
    unfold crawlTrace crawl at hs
    rcases List.mem_cons.mp hs with rfl | hs1
    · omega
    · rcases List.mem_cons.mp hs1 with rfl | hs2
      · dsimp only
        omega
      · rcases List.mem_append.mp hs2 with hs3 | hs3
        · have := hloop.2 s hs3
          dsimp only at this
          omega
        · rcases List.mem_singleton.mp hs3 with rfl
          have := hloop.1
          dsimp only at this
          omega
  refine ⟨hmain, ?_⟩
  intro h0
  rw [h0] at hmain
  simpa [initState] using hmain

/-- C2 witness: the amended bound evaluated on the concrete resumed run. -/
theorem c2_witness :
    (crawlFinal crawlerResume 5 resumedState "p2").visited_puuids.length
      ≤ resumedState.visited_puuids.length + crawlerResume.cfg.max_puuids ∧
    (resumedState = initState →
      (crawlFinal crawlerResume 5 resumedState "p2").visited_puuids.length
        ≤ crawlerResume.cfg.max_puuids) :=
  c2_amended crawlerResume 5 resumedState "p2" _
    (crawlFinal_mem_trace crawlerResume 5 resumedState "p2")

/-- C3: in every run with a configured (truthy) queue-type allow-list,
every match record appended to the corpus during the run passes the
filter, and every match id added to FetchedSet during the run is the id
of a successfully fetched match that passes the filter — so a match whose
queue classifier is not allow-listed is never appended and its id never
enters FetchedSet, at every observation point. -/
theorem c3_queue_filter_rejects :
    ∀ (c : Crawler) (fuel : Nat) (st0 : CrawlState) (seed : PlayerId),
      filterTruthy c.cfg.queue_filter = true →
      ∀ s ∈ crawlTrace c fuel st0 seed,
        (∀ md ∈ s.all_matches, md ∉ st0.all_matches →
          queueAllowed c.cfg.queue_filter md = true) ∧
        (∀ mid ∈ s.fetched_matches, mid ∉ st0.fetched_matches →
          ∃ md, c.client.get_match_details mid = some md ∧
            queueAllowed c.cfg.queue_filter md = true) := by
  intro c fuel st0 seed hft s hs
  have h := crawl_filtered c fuel st0 seed hft s hs
  refine ⟨?_, ?_⟩
  · intro md hmd hnew
    rcases h.1 md hmd with h' | h'
    · exact absurd h' hnew
    · exact h'
  · intro mid hmid hnew
    rcases h.2 mid hmid with h' | h'
    · exact absurd h' hnew
    · exact h'

/-- C3 witness: the filter `[420]` scenario with a fetched match of queue
450, evaluated at the final state of the run. -/
theorem c3_witness :
    (∀ md ∈ (crawlFinal crawlerC3 5 initState "s").all_matches,
      md ∉ initState.all_matches →
      queueAllowed crawlerC3.cfg.queue_filter md = true) ∧
    (∀ mid ∈ (crawlFinal crawlerC3 5 initState "s").fetched_matches,
      mid ∉ initState.fetched_matches →
      ∃ md, crawlerC3.client.get_match_details mid = some md ∧
        queueAllowed crawlerC3.cfg.queue_filter md = true) :=
  c3_queue_filter_rejects crawlerC3 5 initState "s" (by decide) _
    (crawlFinal_mem_trace crawlerC3 5 initState "s")

/-- C4 counterexample: the seed append at the start of `crawl` is
unconditional, so a run resumed from a state whose loaded VisitedSet
already contains the seed re-enqueues that already-visited player: "p1" is
in the resumed state's visited set and not in its (empty) frontier, yet an
observation state of the run has "p1" both visited and in the frontier —
refuting "once a PlayerId is in VisitedSet it is never re-enqueued"
(including resumed runs). -/
theorem c4_counterexample :
    "p1" ∈ resumedState.visited_puuids ∧
    "p1" ∉ resumedState.puuid_queue ∧
    ∃ s ∈ crawlTrace crawlerResume 5 resumedState "p1",
      "p1" ∈ s.visited_puuids ∧ "p1" ∈ s.puuid_queue := by
  decide

/-- C4 (amended): in every run (also one resumed from loaded state, whose
ghost logs start empty) whose set-iteration oracle is a genuine set
iteration, the log of processed players is duplicate-free (each player's
match history is fetched at most once, even when a player id is enqueued
several times), the log of accepted match ids is duplicate-free (no match
record is appended to the corpus twice for the same id), and every
discovery append to the frontier concerned a player not yet visited at
that moment — a visited player is never re-enqueued by discovery.  The
seed append alone is unguarded: resuming with the seed already visited
re-enqueues it once, after which it is dequeued and skipped, not
re-processed (see the counterexample). -/
theorem c4_dedup :
    ∀ (c : Crawler) (fuel : Nat) (st0 : CrawlState) (seed : PlayerId),
      (∀ l, (c.setIter l).Perm l) →
      st0.processedOrder = [] → st0.acceptedIds = [] → st0.enqueueLog = [] →
      ∀ s ∈ crawlTrace c fuel st0 seed,
        s.processedOrder.Nodup ∧ s.acceptedIds.Nodup ∧
        ∀ pb ∈ s.enqueueLog, pb.2 = false := by
  intro c fuel st0 seed hsi h1 h2 h3 s hs
  have h0 : GhostInv st0 := by
    refine ⟨?_, ?_, ?_, ?_, ?_⟩ <;> simp [h1, h2, h3]
  have h := crawl_ghost c fuel st0 seed hsi h0 s hs
  exact ⟨h.1, h.2.2.1, h.2.2.2.2⟩

/-- C4 witness: the dedup properties evaluated on the participant-discovery
scenario with the identity set-iteration order. -/
theorem c4_witness :
    (crawlFinal (crawlerC6 (fun l => l)) 10 initState "seed").processedOrder.Nodup ∧
    (crawlFinal (crawlerC6 (fun l => l)) 10 initState "seed").acceptedIds.Nodup ∧
    ∀ pb ∈ (crawlFinal (crawlerC6 (fun l => l)) 10 initState "seed").enqueueLog,
      pb.2 = false :=
  c4_dedup (crawlerC6 (fun l => l)) 10 initState "seed"
    (fun l => List.Perm.refl l) rfl rfl rfl _
    (crawlFinal_mem_trace (crawlerC6 (fun l => l)) 10 initState "seed")

/-- C5 counterexample: the seed enqueue at the start of `crawl` is not
guarded by the cap check, so a run resumed from a state whose visited set
already matches `max_puuids = 1` reaches an observation state with
`|VisitedSet| + |Frontier| = 2 > 1`. -/
theorem c5_counterexample :
    ∃ s ∈ crawlTrace crawlerResume 5 resumedState "p2",
      crawlerResume.cfg.max_puuids
        < s.visited_puuids.length + s.puuid_queue.length := by
  decide

/-- C5 (amended): every discovered-participant enqueue is guarded by the
enqueue-time cap check — an append happens exactly when
`|VisitedSet| + |Frontier| < max_puuids` at that moment, and excess
discoveries are silently dropped — and in a fresh run with
`max_puuids ≥ 1` the invariant `|VisitedSet| + |Frontier| ≤ max_puuids`
holds at every observation point.  The seed enqueue itself is unguarded,
so a resumed run can violate the invariant (see the counterexample). -/
theorem c5_amended :
    (∀ (maxP : Nat) (st : CrawlState) (p : PlayerId),
      ¬ st.visited_puuids.length + st.puuid_queue.length < maxP →
      enqueueOne maxP st p = st) ∧
    (∀ (maxP : Nat) (st : CrawlState) (p : PlayerId),
      st.visited_puuids.length + st.puuid_queue.length < maxP →
      (enqueueOne maxP st p).puuid_queue = st.puuid_queue ++ [p]) ∧
    (∀ (c : Crawler) (fuel : Nat) (seed : PlayerId),
      1 ≤ c.cfg.max_puuids →
      ∀ s ∈ crawlTrace c fuel initState seed,
        s.visited_puuids.length + s.puuid_queue.length ≤ c.cfg.max_puuids) := by
  refine ⟨?_, ?_, ?_⟩
  · intro maxP st p h
    unfold enqueueOne
    rw [if_neg h]
  · intro maxP st p h
    unfold enqueueOne
    rw [if_pos h]
  · intro c fuel seed hmax s hs
    refine crawl_sum c fuel initState seed ?_ ?_ s hs
    · simp [SumInv, initState]
    · simpa [SumInv, initState] using hmax

/-- C5 witness: an over-cap enqueue is dropped, a cap-respecting enqueue
appends, and the fresh-run sum invariant evaluated on the discovery
scenario's final state. -/
theorem c5_witness :
    enqueueOne 1 resumedState "q" = resumedState ∧
    (enqueueOne 3 initState "q").puuid_queue = initState.puuid_queue ++ ["q"] ∧
    (crawlFinal (crawlerC6 (fun l => l)) 10 initState "seed").visited_puuids.length
        + (crawlFinal (crawlerC6 (fun l => l)) 10 initState "seed").puuid_queue.length
      ≤ (crawlerC6 (fun l => l)).cfg.max_puuids :=
  ⟨c5_amended.1 1 resumedState "q" (by decide),
   c5_amended.2.1 3 initState "q" (by decide),
   c5_amended.2.2 (crawlerC6 (fun l => l)) 10 "seed" (by decide) _
     (crawlFinal_mem_trace (crawlerC6 (fun l => l)) 10 initState "seed")⟩

/-- A permutation of a two-element duplicate-free list is one of its two
orderings. -/
theorem perm_pair_cases {α : Type} [DecidableEq α] {a b : α} (hab : a ≠ b) :
    ∀ {l : List α}, l.Perm [a, b] → l = [a, b] ∨ l = [b, a] := by
  intro l h
  have hlen : l.length = 2 := by simpa using h.length_eq
  rcases l with _ | ⟨x, _ | ⟨y, _ | ⟨z, t⟩⟩⟩
  · simp at hlen
  · simp at hlen
  · have hx : x ∈ [a, b] := h.mem_iff.mp (by simp)
    have hy : y ∈ [a, b] := h.mem_iff.mp (by simp)
    have hnd : ([x, y] : List α).Nodup := by
      refine (h.nodup_iff).mpr ?_
      simp [hab]
    have hxy : x ≠ y := by
      intro he
      rw [he] at hnd
      simp at hnd
    simp only [List.mem_cons, List.mem_singleton, List.not_mem_nil, or_false] at hx hy
    rcases hx with rfl | rfl <;> rcases hy with rfl | rfl
    · exact absurd rfl hxy
    · exact Or.inl rfl
    · exact Or.inr rfl
    · exact absurd rfl hxy
  · simp at hlen

/-- C6 counterexample: `new_participants` is a Python set, whose iteration
order is unspecified; `List.reverse`-style orders are genuine set
iterations (permutations).  Under the reversed order of the two
discoveries, the `[A, B, seed]` scenario processes `B` before `A`, so the
crawl does not guarantee processing in discovery order. -/
theorem c6_counterexample :
    (["B", "A"] : List PlayerId).Perm ["A", "B"] ∧
    (crawlFinal (crawlerC6 (fun _ => ["B", "A"])) 10 initState "seed").processedOrder
      = ["seed", "B", "A"] := by
  constructor
  · decide
  · decide

/-- C6 (amended): the frontier is FIFO (the seed's round enqueues both
discovered participants, and they are both processed, after the seed and
before the frontier empties), but the relative order of `A` and `B` is
whatever order the set iteration yields for the round's discovery set;
under insertion order (the identity iteration) they are processed in
discovery order `A` then `B`. -/
theorem c6_amended :
    ∀ q : List PlayerId, q.Perm ["A", "B"] →
      (crawlFinal (crawlerC6 (fun _ => q)) 10 initState "seed").processedOrder
          = "seed" :: q ∧
      ((crawlFinal (crawlerC6 (fun _ => q)) 10 initState "seed").processedOrder).Perm
          ["seed", "A", "B"] := by
  intro q hq
  rcases perm_pair_cases (by decide : ("A" : PlayerId) ≠ "B") hq with rfl | rfl
  · exact ⟨by decide, by decide⟩
  · exact ⟨by decide, by decide⟩

/-- C6 witness: the amended statement instantiated at the insertion-order
iteration, where the processing order is exactly discovery order. -/
theorem c6_witness :
    (crawlFinal (crawlerC6 (fun _ => ["A", "B"])) 10 initState "seed").processedOrder
        = "seed" :: ["A", "B"] ∧
    ((crawlFinal (crawlerC6 (fun _ => ["A", "B"])) 10 initState "seed").processedOrder).Perm
        ["seed", "A", "B"] :=
  c6_amended ["A", "B"] (List.Perm.refl _)

/-- C7: a failed `get_match_details` call leaves state and discoveries
untouched (that match contributes nothing and the loop continues with the
next id); a failed `get_match_history` call leaves the round's state
untouched (only that player's round is abandoned); a dequeued unvisited
player is in VisitedSet in the final state even though processing may have
failed, because it is marked visited before the listing fetch is
attempted; and no player is processed twice in one run. -/
theorem c7_fault_tolerance :
    (∀ (c : Crawler) (st : CrawlState) (np : List PlayerId) (mid : MatchId),
      c.client.get_match_details mid = none → handleMatch c st np mid = (st, np)) ∧
    (∀ (c : Crawler) (st : CrawlState) (cur : PlayerId),
      c.client.get_match_history cur c.cfg.matches_per_puuid = none →
      processPlayer c st cur = (st, [])) ∧
    (∀ (c : Crawler) (fuel processed : Nat) (st : CrawlState) (cur : PlayerId)
        (rest : List PlayerId),
      st.puuid_queue = cur :: rest → cur ∉ st.visited_puuids →
      processed < c.cfg.max_puuids →
      st.fetched_matches.length < c.cfg.max_matches →
      cur ∈ (crawlLoop c (fuel + 1) processed st).2.1.visited_puuids) ∧
    (∀ (c : Crawler) (fuel : Nat) (st0 : CrawlState) (seed : PlayerId),
      (∀ l, (c.setIter l).Perm l) →
      st0.processedOrder = [] → st0.acceptedIds = [] → st0.enqueueLog = [] →
      ∀ p : PlayerId,
        ((crawlFinal c fuel st0 seed).processedOrder).count p ≤ 1) := by
  refine ⟨?_, ?_, ?_, ?_⟩
  · intro c st np mid h
    unfold handleMatch
    rw [h]
    split <;> rfl
  · intro c st cur h
    unfold processPlayer
    rw [h]
  · intro c fuel processed st cur rest hq hv hlt hcap
    rw [crawlLoop]
    split
    · rename_i heq
      rw [hq] at heq
      simp at heq
    · rename_i cur' rest' heq
      rw [hq] at heq
      injection heq with h1 h2
      subst h1
      subst h2
      split
      · split
        · rename_i hge
          exact absurd hge (not_le.mpr hcap)
        · dsimp only
          refine crawlLoop_visited_mono c fuel (processed + 1) _ cur ?_
          rw [(processPlayer_frame c _ cur).1.1]
          exact self_mem_setAdd cur st.visited_puuids
      · rename_i hlt'
        exact absurd hlt hlt'
  · intro c fuel st0 seed hsi h1 h2 h3 p
    have h0 : GhostInv st0 := by
      refine ⟨?_, ?_, ?_, ?_, ?_⟩ <;> simp [h1, h2, h3]
    have h := crawl_ghost c fuel st0 seed hsi h0 _
      (crawlFinal_mem_trace c fuel st0 seed)
    exact List.nodup_iff_count_le_one.mp h.1 p

/-- C7 witness: the four fault-tolerance facts evaluated on the failing
client. -/
theorem c7_witness :
    handleMatch crawlerFail initState [] "m" = (initState, []) ∧
    processPlayer crawlerFail initState "x" = (initState, []) ∧
    "x" ∈ (crawlLoop crawlerFail 4 0
      { initState with puuid_queue := ["x"] }).2.1.visited_puuids ∧
    ((crawlFinal crawlerFail 5 initState "s").processedOrder).count "s" ≤ 1 :=
  ⟨c7_fault_tolerance.1 crawlerFail initState [] "m" rfl,
   c7_fault_tolerance.2.1 crawlerFail initState "x" rfl,
   c7_fault_tolerance.2.2.1 crawlerFail 3 0
     { initState with puuid_queue := ["x"] } "x" [] rfl (by decide) (by decide)
     (by decide),
   c7_fault_tolerance.2.2.2 crawlerFail 5 initState "s"
     (fun l => List.Perm.refl l) rfl rfl rfl "s"⟩

/-- A malformed match record with no compact id list and a single detailed
participant object whose puuid field is present but empty. -/
def mdEmptyPuuid : MatchData :=
  { metadata := none,
    info := some { queueId := none, participants := some [{ puuid := some "" }] } }

/-- A match record missing both the metadata and info fields. -/
def mdMissing : MatchData := { metadata := none, info := none }

/-- The per-participant selection in the fallback branch equals: take the
present puuids, then drop the empty ones (Python truthiness). -/
theorem filterMap_truthy (l : List ParticipantObj) :
    l.filterMap (fun p => if truthyStr p.puuid then p.puuid else none)
      = (l.filterMap ParticipantObj.puuid).filter (fun s => !s.isEmpty) := by
  induction l with
  | nil => rfl
  | cons p rest ih =>
    rcases hp : p.puuid with _ | s
    · have ht : truthyStr p.puuid = false := by rw [hp]; rfl
      simp [List.filterMap_cons, hp, ht, ih]
    · cases hs : s.isEmpty
      · have ht : truthyStr (some s) = true := by simp [truthyStr, hs]
        simp [List.filterMap_cons, List.filter_cons, hp, ht, hs, ih]
      · have ht : truthyStr (some s) = false := by simp [truthyStr, hs]
        simp [List.filterMap_cons, List.filter_cons, hp, ht, hs, ih]

/-- C8 counterexample: on a match whose only participant object carries the
empty-string id, the ids present in the detailed objects are `[""]` but
`extract_participants` returns `[]` — the Python truthiness test
`if p.get("puuid")` also drops a present-but-empty id, not only missing
ones. -/
theorem c8_counterexample :
    extract_participants mdEmptyPuuid = [] ∧
    (infoParticipants mdEmptyPuuid).filterMap ParticipantObj.puuid = [""] := by
  exact ⟨rfl, rfl⟩

/-- C8 (amended): `extract_participants` returns the compact
`metadata.participants` list as-is when present and non-empty; otherwise it
returns the ids present in the detailed `info.participants` objects,
omitting any participant lacking an id and also any participant whose id is
the empty string; and on a match missing both fields it returns `[]`
rather than failing.  It is a pure function by construction. -/
theorem c8_amended :
    (∀ m : MatchData, metaParticipants m ≠ [] →
      extract_participants m = metaParticipants m) ∧
    (∀ m : MatchData, metaParticipants m = [] →
      extract_participants m =
        ((infoParticipants m).filterMap ParticipantObj.puuid).filter
          (fun s => !s.isEmpty)) ∧
    (∀ m : MatchData, m.metadata = none → m.info = none →
      extract_participants m = []) := by
  refine ⟨?_, ?_, ?_⟩
  · intro m h
    unfold extract_participants
    have he : (metaParticipants m).isEmpty = false := by
      simp [List.isEmpty_iff]
      exact h
    dsimp only
    rw [he]
    rfl
  · intro m h
    unfold extract_participants
    have he : (metaParticipants m).isEmpty = true := by
      simp [List.isEmpty_iff, h]
    dsimp only
    rw [he]
    exact filterMap_truthy (infoParticipants m)
  · intro m h1 h2
    unfold extract_participants
    simp [metaParticipants, infoParticipants, h1, h2]

/-- C8 witness: the three amended clauses evaluated on concrete records. -/
theorem c8_witness :
    extract_participants mdSeedMatch = metaParticipants mdSeedMatch ∧
    extract_participants mdEmptyPuuid =
      ((infoParticipants mdEmptyPuuid).filterMap ParticipantObj.puuid).filter
        (fun s => !s.isEmpty) ∧
    extract_participants mdMissing = [] :=
  ⟨c8_amended.1 mdSeedMatch (by decide),
   c8_amended.2.1 mdEmptyPuuid rfl,
   c8_amended.2.2 mdMissing rfl rfl⟩

/-- C9: `save_results` followed by `load_state` on the produced document
restores VisitedSet and FetchedSet with exactly the same membership,
whatever state the document is loaded into and whether or not matches were
included. -/
theorem c9_roundtrip :
    ∀ (st other : CrawlState) (b : Bool) (p : PlayerId) (mid : MatchId),
      (p ∈ (load_state other (save_results st b)).visited_puuids ↔
        p ∈ st.visited_puuids) ∧
      (mid ∈ (load_state other (save_results st b)).fetched_matches ↔
        mid ∈ st.fetched_matches) := by
  intro st other b p mid
  cases b <;>
    simp [load_state, save_results, List.mem_dedup]

/-- C10: the empty-list queue filter is falsy in Python, so filtering is
disabled rather than rejecting everything: `should_fetch_match` accepts any
not-yet-fetched match regardless of data, and the crawl's per-match step
accepts every successfully fetched, not-previously-fetched match whatever
its queue id. -/
theorem c10_empty_filter :
    (∀ (fetched : List MatchId) (mid : MatchId) (md : Option MatchData),
      mid ∉ fetched → should_fetch_match (some []) fetched mid md = true) ∧
    (∀ (c : Crawler) (st : CrawlState) (np : List PlayerId) (mid : MatchId)
        (md : MatchData),
      c.cfg.queue_filter = some [] → mid ∉ st.fetched_matches →
      c.client.get_match_details mid = some md →
      (handleMatch c st np mid).1.fetched_matches = setAdd mid st.fetched_matches ∧
      (handleMatch c st np mid).1.all_matches = st.all_matches ++ [md]) := by
  constructor
  · intro fetched mid md h
    unfold should_fetch_match
    rw [if_neg h]
    cases md <;> rfl
  · intro c st np mid md hqf hmem hdet
    unfold handleMatch
    rw [hqf, hdet, should_fetch_match_none (some []) st.fetched_matches mid |>.mpr hmem]
    exact ⟨rfl, rfl⟩

/-- C10 witness: the two clauses evaluated on the empty-filter crawler and
a queue-420 match (any queue id passes). -/
theorem c10_witness :
    should_fetch_match (some []) [] "m1" (some md450) = true ∧
    (handleMatch crawlerC10 initState [] "m1").1.fetched_matches
        = setAdd "m1" initState.fetched_matches ∧
    (handleMatch crawlerC10 initState [] "m1").1.all_matches
        = initState.all_matches ++ [mdPlain] :=
  ⟨c10_empty_filter.1 [] "m1" (some md450) (by decide),
   c10_empty_filter.2 crawlerC10 initState [] "m1" mdPlain rfl (by decide) rfl⟩

end LeagueCrawler
